import Mathlib

/-!
Verification of the HTTP/1.1 request parser in `src/http/http_request.rs`.

Modelling conventions:
* A Rust `String` / `&str` is modelled as `List Char` (Unicode scalar values).
* The byte stream handed to `parse_http_request` is a `List Nat`, each entry a
  byte value `< 256`; the in-memory readers used by the repository's tests
  (`&[u8]`) never produce I/O errors, so the only read failures are UTF-8
  validation failures, which we model through `utf8Decode`.
* `Result` / `Option` become `Except` / `Option`; a panic reachable in the
  Rust code (the `unwrap` on each header-line read result) is modelled by the
  dedicated outcome `ParseOutcome.panicked`.
-/

/-- The error enum `HttpParseError` from the source (three variants; the
variant `ReadBodyError` is unreachable for in-memory streams because
`read_to_end` on a byte slice cannot fail). -/
inductive HttpParseError where
  | ParseStartLineError
  | ParseHeaderError
  | ReadBodyError
deriving DecidableEq, Repr

/-- The method enum `HttpRequestMethod` from the source. -/
inductive HttpRequestMethod where
  | Get
  | Head
  | Post
  | Put
  | Delete
  | Connect
  | Options
  | Trace
  | Patch
deriving DecidableEq, Repr

/-- The record `HttpRequest` from the source.  The `HashMap` of headers is
modelled as an association list with unique keys (see `insertHeader`). -/
structure HttpRequest where
  method : HttpRequestMethod
  path : List Char
  headers : List (List Char × List Char)
  body : List Char
deriving DecidableEq, Repr

/-- Outcome of one call to `parse_http_request`: a value, a typed error, or a
panic (the Rust code can panic through `unwrap` while reading header lines). -/
inductive ParseOutcome where
  | ok (r : HttpRequest)
  | err (e : HttpParseError)
  | panicked
deriving DecidableEq, Repr

/-- Models `str::to_uppercase` on the ASCII fragment (`a`-`z` map to `A`-`Z`,
everything else is fixed).  Rust's full Unicode mapping agrees with this on
all ASCII strings, which is the fragment the method table exercises. -/
def to_uppercase (s : List Char) : List Char :=
  s.map fun c => if 'a' ≤ c ∧ c ≤ 'z' then Char.ofNat (c.toNat - 32) else c

/-- Function `http_request_method_from_string` from the source.  Note that the source
compares the *uppercased* token against the mixed-case literal `"Patch"`
(line 90 of `http_request.rs`), and falls back to `Get` for anything else. -/
def http_request_method_from_string (s : List Char) : HttpRequestMethod :=
  let u := to_uppercase s
  if u = "GET".toList then HttpRequestMethod.Get
  else if u = "HEAD".toList then HttpRequestMethod.Head
  else if u = "POST".toList then HttpRequestMethod.Post
  else if u = "PUT".toList then HttpRequestMethod.Put
  else if u = "DELETE".toList then HttpRequestMethod.Delete
  else if u = "CONNECT".toList then HttpRequestMethod.Connect
  else if u = "OPTIONS".toList then HttpRequestMethod.Options
  else if u = "TRACE".toList then HttpRequestMethod.Trace
  else if u = "Patch".toList then HttpRequestMethod.Patch
  else HttpRequestMethod.Get

/-- Test `startsWith pat s`: does `s` start with `pat`?  (Rust `str::starts_with`,
used to locate pattern occurrences for `str::split`.) -/
def startsWith : List Char → List Char → Bool
  | [], _ => true
  | _ :: _, [] => false
  | a :: pat, b :: s => a = b && startsWith pat s

/-- Does `s` contain an occurrence of the (non-empty) pattern `pat`?
(Rust `str::contains`; drives the `none` case of the split iterator.) -/
def containsSeq (pat : List Char) : List Char → Bool
  | [] => false
  | c :: t => startsWith pat (c :: t) || containsSeq pat t

/-- One step of Rust's `str::split(pat)` iterator for a non-empty pattern:
returns the segment before the first occurrence of `pat`, together with
`some` remainder after that occurrence (or `none` when `pat` does not occur,
in which case the segment is the whole string and the iterator is done). -/
def splitNext (pat : List Char) : List Char → List Char × Option (List Char)
  | [] => ([], none)
  | c :: t =>
    if startsWith pat (c :: t) then ([], some ((c :: t).drop pat.length))
    else
      let p := splitNext pat t
      (c :: p.1, p.2)

/-- The header separator `": "` used by `parse_http_header`. -/
def sepHV : List Char := [':', ' ']

/-- Function `parse_http_header` from the source: `s.split(": ")`, take the first
item as the name and the second as the value; `None` when the iterator has
no second item (i.e. the line contains no `": "`). -/
def parse_http_header (s : List Char) : Option (List Char × List Char) :=
  let p := splitNext sepHV s
  match p.2 with
  | none => none
  | some r => some (p.1, (splitNext sepHV r).1)

/-- Function `parse_http_start_line` from the source: `s.split(" ")`, the first item
is fed to the method table (the iterator always yields a first item, so the
source's `None => Get` arm is dead), the second item is the path, defaulting
to `"/"` when the line has a single token. -/
def parse_http_start_line (s : List Char) : HttpRequestMethod × List Char :=
  let p := splitNext [' '] s
  (http_request_method_from_string p.1,
    match p.2 with
    | some r => (splitNext [' '] r).1
    | none => ['/'])

/-- UTF-8 validation and decoding as performed by `String::from_utf8` and by
`BufRead::read_line` / `BufRead::lines` in the Rust standard library:
rejects stray continuation bytes, overlong encodings, surrogate code points
and values above `U+10FFFF`; returns the decoded scalar values on success. -/
def utf8Decode : List Nat → Option (List Char)
  | [] => some []
  | b0 :: rest =>
    if b0 ≤ 0x7F then
      match utf8Decode rest with
      | some cs => some (Char.ofNat b0 :: cs)
      | none => none
    else if 0xC2 ≤ b0 ∧ b0 ≤ 0xDF then
      match rest with
      | b1 :: rest1 =>
        if 0x80 ≤ b1 ∧ b1 ≤ 0xBF then
          match utf8Decode rest1 with
          | some cs => some (Char.ofNat ((b0 - 0xC0) * 0x40 + (b1 - 0x80)) :: cs)
          | none => none
        else none
      | [] => none
    else if 0xE0 ≤ b0 ∧ b0 ≤ 0xEF then
      match rest with
      | b1 :: b2 :: rest2 =>
        if ((b0 = 0xE0 ∧ 0xA0 ≤ b1 ∧ b1 ≤ 0xBF) ∨
            (0xE1 ≤ b0 ∧ b0 ≤ 0xEC ∧ 0x80 ≤ b1 ∧ b1 ≤ 0xBF) ∨
            (b0 = 0xED ∧ 0x80 ≤ b1 ∧ b1 ≤ 0x9F) ∨
            (0xEE ≤ b0 ∧ b0 ≤ 0xEF ∧ 0x80 ≤ b1 ∧ b1 ≤ 0xBF)) ∧
           (0x80 ≤ b2 ∧ b2 ≤ 0xBF) then
          match utf8Decode rest2 with
          | some cs =>
            some (Char.ofNat ((b0 - 0xE0) * 0x1000 + (b1 - 0x80) * 0x40 + (b2 - 0x80)) :: cs)
          | none => none
        else none
      | _ => none
    else if 0xF0 ≤ b0 ∧ b0 ≤ 0xF4 then
      match rest with
      | b1 :: b2 :: b3 :: rest3 =>
        if ((b0 = 0xF0 ∧ 0x90 ≤ b1 ∧ b1 ≤ 0xBF) ∨
            (0xF1 ≤ b0 ∧ b0 ≤ 0xF3 ∧ 0x80 ≤ b1 ∧ b1 ≤ 0xBF) ∨
            (b0 = 0xF4 ∧ 0x80 ≤ b1 ∧ b1 ≤ 0x8F)) ∧
           (0x80 ≤ b2 ∧ b2 ≤ 0xBF) ∧ (0x80 ≤ b3 ∧ b3 ≤ 0xBF) then
          match utf8Decode rest3 with
          | some cs =>
            some (Char.ofNat ((b0 - 0xF0) * 0x40000 + (b1 - 0x80) * 0x1000 +
              (b2 - 0x80) * 0x40 + (b3 - 0x80)) :: cs)
          | none => none
        else none
      | _ => none
    else none

/-- Models `BufRead::read_line` at the byte level: consume bytes up to and including
the first `0x0A`, or the whole stream if there is none.  Returns the consumed
bytes and the rest of the stream. -/
def read_line_bytes : List Nat → List Nat × List Nat
  | [] => ([], [])
  | b :: rest =>
    if b = 10 then ([10], rest)
    else
      let p := read_line_bytes rest
      (b :: p.1, p.2)

/-- The sequence of raw line chunks (each including its terminating `0x0A`
byte, except possibly the last) that successive `read_line` calls produce. -/
def byteLines : List Nat → List (List Nat)
  | [] => []
  | b :: rest =>
    if b = 10 then [10] :: byteLines rest
    else
      match byteLines rest with
      | [] => [[b]]
      | l :: ls => (b :: l) :: ls

/-- The `Lines` iterator's terminator stripping: drop one trailing `'\n'`,
and after that one trailing `'\r'`. -/
def stripNewline (s : List Char) : List Char :=
  if s.getLast? = some '\n' then
    let s1 := s.dropLast
    if s1.getLast? = some '\r' then s1.dropLast else s1
  else s

/-- The header-block phase of `parse_http_request`:
`reader.lines().map(|result| result.unwrap()).take_while(|line| !line.is_empty()).collect()`.
Input is the chunk list of the remaining stream.  Returns `none` when the
`unwrap` panics (a line that is not valid UTF-8), otherwise the collected
non-empty lines and the chunks remaining after the blank line (take_while
stops reading there; at end-of-stream the iterator simply ends). -/
def headerPhase : List (List Nat) → Option (List (List Char) × List (List Nat))
  | [] => some ([], [])
  | chunk :: rest =>
    match utf8Decode chunk with
    | none => none
    | some l =>
      let line := stripNewline l
      if line = [] then some ([], rest)
      else
        match headerPhase rest with
        | none => none
        | some p => some (line :: p.1, p.2)

/-- Models `HashMap::insert` on the association-list model: overwrite the value of
an existing key, otherwise append the new binding. -/
def insertHeader : List (List Char × List Char) → List Char → List Char →
    List (List Char × List Char)
  | [], k, v => [(k, v)]
  | p :: t, k, v => if p.1 = k then (k, v) :: t else p :: insertHeader t k v

/-- Models `HashMap::get` on the association-list model. -/
def headersGet : List (List Char × List Char) → List Char → Option (List Char)
  | [], _ => none
  | p :: t, k => if p.1 = k then some p.2 else headersGet t k

/-- The `for raw_header in raw_headers` loop of `parse_http_request`:
insert each parsed header, aborting with `None` (mapped to
`ParseHeaderError` by the caller) on the first line `parse_http_header`
rejects. -/
def buildHeaders (m : List (List Char × List Char)) :
    List (List Char) → Option (List (List Char × List Char))
  | [] => some m
  | h :: t =>
    match parse_http_header h with
    | none => none
    | some nv => buildHeaders (insertHeader m nv.1 nv.2) t

/-- Digit accumulator for `str::parse::<i32>` (no sign, all characters must
be decimal digits, at least one digit). -/
def parseDigitsAux (acc : Nat) : List Char → Option Nat
  | [] => some acc
  | c :: t =>
    if '0' ≤ c ∧ c ≤ '9' then parseDigitsAux (acc * 10 + (c.toNat - 48)) t
    else none

/-- Shared body of `str::parse::<i32>` after the optional sign: requires a
non-empty all-digit tail and the signed value to fit in `i32`. -/
def parseI32Digits (neg : Bool) : List Char → Option Int
  | [] => none
  | ds =>
    match parseDigitsAux 0 ds with
    | none => none
    | some n =>
      if neg then (if n ≤ 2147483648 then some (-(n : Int)) else none)
      else (if n ≤ 2147483647 then some (n : Int) else none)

/-- Models `str::parse::<i32>`: optional single `+`/`-` sign followed by one or
more decimal digits, rejecting anything else and out-of-range values. -/
def parse_i32 : List Char → Option Int
  | [] => none
  | '+' :: ds => parseI32Digits false ds
  | '-' :: ds => parseI32Digits true ds
  | ds => parseI32Digits false ds

/-- Models `str::replace` with pattern `"\0\u{f}"` and empty replacement: remove
every (left-to-right, non-overlapping) occurrence of the two characters
`U+0000 U+000F`. -/
def replaceNulSi : List Char → List Char
  | c1 :: c2 :: t =>
    if c1 = Char.ofNat 0 ∧ c2 = Char.ofNat 15 then replaceNulSi t
    else c1 :: replaceNulSi (c2 :: t)
  | s => s

/-- Function `parse_http_request` from the source, over an in-memory byte stream:
1. `read_line` for the start line (`Err`, i.e. invalid UTF-8, gives
   `ParseStartLineError`; at end-of-input the read succeeds with `""`);
2. `parse_http_start_line` on the line *including* its terminator;
3. collect header lines until a blank line (`unwrap` panic on a non-UTF-8
   line → `panicked`), abort with `ParseHeaderError` on a malformed one;
4. `content_length` from the `"Content-Length"` header via
   `parse::<i32>().unwrap_or(0)`, defaulting to 0;
5. `body_buffer = vec![0, content_length as u8]` (a two-element vector),
   then `read_to_end` appends every remaining stream byte (an in-memory
   reader cannot fail here, so `ReadBodyError` is unreachable);
6. `String::from_utf8(..).unwrap_or(String::new()).replace("\0\u{f}", "")`. -/
def parse_http_request (stream : List Nat) : ParseOutcome :=
  match utf8Decode (read_line_bytes stream).1 with
  | none => ParseOutcome.err HttpParseError.ParseStartLineError
  | some line =>
    let mp := parse_http_start_line line
    match headerPhase (byteLines (read_line_bytes stream).2) with
    | none => ParseOutcome.panicked
    | some hp =>
      match buildHeaders [] hp.1 with
      | none => ParseOutcome.err HttpParseError.ParseHeaderError
      | some headers =>
        let content_length : Int :=
          match headersGet headers "Content-Length".toList with
          | some h => (parse_i32 h).getD 0
          | none => 0
        let body_buffer : List Nat :=
          0 :: (content_length % 256).toNat :: hp.2.flatten
        let body : List Char :=
          match utf8Decode body_buffer with
          | some cs => replaceNulSi cs
          | none => []
        ParseOutcome.ok ⟨mp.1, mp.2, headers, body⟩

/-- Byte encoding of an ASCII string literal (used only to write concrete
test streams; every literal passed to it below is ASCII, where UTF-8
encoding is the identity on code points). -/
def strBytes (s : String) : List Nat := s.toList.map Char.toNat

/-! ### Helper lemmas about the split iterator, the header loop and the
assembler's control flow. -/

theorem splitNext_of_not_contains (pat s : List Char) (h : containsSeq pat s = false) :
    splitNext pat s = (s, none) := by
  induction s with
  | nil => rfl
  | cons c t ih =>
    rw [containsSeq] at h
    rcases Bool.or_eq_false_iff.mp h with ⟨h1, h2⟩
    rw [splitNext, h1]
    simp [ih h2]

theorem containsSeq_single (a : Char) (s : List Char) (h : a ∉ s) :
    containsSeq [a] s = false := by
  induction s with
  | nil => rfl
  | cons c t ih =>
    rw [containsSeq, startsWith, startsWith]
    have hac : ¬ a = c := fun he => h (he ▸ List.mem_cons_self a t)
    simp [hac, ih (fun ht => h (List.mem_cons_of_mem c ht))]

theorem splitNext_single_append (a : Char) (m r : List Char) (hm : a ∉ m) :
    splitNext [a] (m ++ a :: r) = (m, some r) := by
  induction m with
  | nil => simp [splitNext, startsWith]
  | cons c t ih =>
    have hac : ¬ a = c := fun he => hm (he ▸ List.mem_cons_self a t)
    rw [List.cons_append, splitNext, startsWith]
    simp only [hac, decide_False, Bool.false_and, if_neg Bool.false_ne_true]
    simp [ih (fun ht => hm (List.mem_cons_of_mem c ht))]

theorem splitNext_sepHV_append (name r : List Char) (h : containsSeq sepHV name = false) :
    splitNext sepHV (name ++ ':' :: ' ' :: r) = (name, some r) := by
  induction name with
  | nil => simp [splitNext, startsWith, sepHV]
  | cons c t ih =>
    rw [containsSeq] at h
    rcases Bool.or_eq_false_iff.mp h with ⟨h1, h2⟩
    rw [List.cons_append, splitNext]
    have hsw : startsWith sepHV (c :: (t ++ ':' :: ' ' :: r)) = false := by
      cases t with
      | nil => simp [sepHV, startsWith]
      | cons d t' =>
        simp only [sepHV, startsWith, List.cons_append] at h1 ⊢
        simpa using h1
    rw [hsw]
    simp [ih h2]

theorem parse_http_header_no_sep (s : List Char) (h : containsSeq sepHV s = false) :
    parse_http_header s = none := by
  rw [parse_http_header, splitNext_of_not_contains sepHV s h]

theorem buildHeaders_of_bad (raws : List (List Char)) (l : List Char)
    (hl : l ∈ raws) (hbad : parse_http_header l = none) :
    ∀ m, buildHeaders m raws = none := by
  induction raws with
  | nil => cases hl
  | cons h t ih =>
    intro m
    rw [buildHeaders]
    rcases List.mem_cons.mp hl with he | ht
    · rw [← he, hbad]
    · cases hp : parse_http_header h with
      | none => rfl
      | some nv => exact ih ht _

theorem parse_ok_path (stream : List Nat) (line : List Char)
    (hline : utf8Decode (read_line_bytes stream).1 = some line)
    (r : HttpRequest) (h : parse_http_request stream = ParseOutcome.ok r) :
    r.path = (parse_http_start_line line).2 := by
  rw [parse_http_request, hline] at h
  simp only at h
  cases hhp : headerPhase (byteLines (read_line_bytes stream).2) with
  | none => rw [hhp] at h; simp only at h; cases h
  | some hp =>
    rw [hhp] at h
    simp only at h
    cases hbh : buildHeaders [] hp.1 with
    | none => rw [hbh] at h; simp only at h; cases h
    | some hd =>
      rw [hbh] at h
      simp only at h
      cases h
      rfl

/-! ### Model validation against the repository's own unit test. -/

/-- Sanity check: the embedding reproduces the source's unit test
`http_request_parses_successfully` field for field (the test passes in the
source only because the seeded buffer bytes `0x00 0x0F` are removed again by
the `replace` call). -/
theorem model_reproduces_repo_request_test :
    parse_http_request (strBytes "DELETE /users/actor HTTP/1.1\nContent-Type: application/json\nContent-Length: 15\n\n\x7b\"proceed\": true\x7d") =
      ParseOutcome.ok ⟨HttpRequestMethod.Delete, "/users/actor".toList,
        [("Content-Type".toList, "application/json".toList),
         ("Content-Length".toList, "15".toList)],
        "\x7b\"proceed\": true\x7d".toList⟩ := by decide

/-! ### The claims. -/

/-- C1: the claim says every start line whose first token case-insensitively
matches one of the nine methods (PATCH included) tokenizes to that method
plus the literal second token.  The code disagrees for PATCH: the match arm
compares the uppercased token against the literal `"Patch"`, which
`to_uppercase` can never produce, so `"PATCH /p HTTP/1.1"` tokenizes to
`Get` (the fall-through default), not `Patch`. -/
theorem c1_patch_start_line_maps_to_get :
    parse_http_start_line ("PATCH /p HTTP/1.1".toList) =
      (HttpRequestMethod.Get, "/p".toList) := by decide

/-- C2: the claim says the assembler reads exactly `Content-Length` bytes as
the body and fails with a truncation error when fewer are available.
Evaluating the code on a stream that declares `Content-Length: 5` but has
only the two bytes `"ab"` left: it succeeds with the 4-character body
`"\x00\x05ab"` (the two-element seed buffer `vec![0, content_length as u8]`
followed by every remaining stream byte), with no truncation error — no
such error variant even exists in the code. -/
theorem c2_truncated_stream_returns_ok :
    parse_http_request (strBytes "GET /x HTTP/1.1\nContent-Length: 5\n\nab") =
      ParseOutcome.ok ⟨HttpRequestMethod.Get, "/x".toList,
        [("Content-Length".toList, "5".toList)],
        [Char.ofNat 0, Char.ofNat 5, 'a', 'b']⟩ := by decide

/-- C3: the claim says a request without `Content-Length` and without body
bytes parses with an *empty* body.  Evaluating the code on exactly such a
stream: parsing succeeds but the body is the two-character string
`"\x00\x00"`, because `body_buffer` is initialized to the two-element vector
`vec![0, content_length as u8]` (an evident slip for `vec![0; ...]`) and
`"\x00\x00"` is not removed by the `replace("\0\u{f}", "")` call. -/
theorem c3_no_content_length_body_not_empty :
    parse_http_request (strBytes "GET / HTTP/1.1\n\n") =
      ParseOutcome.ok ⟨HttpRequestMethod.Get, ['/'], [],
        [Char.ofNat 0, Char.ofNat 0]⟩ := by decide

/-- C4 counterexample: the claim says a start line with no space fails with
a malformed-start-line error.  On the empty line the tokenizer instead
returns the pair `(Get, "/")`; it has no failure mode at all. -/
theorem c4_empty_line_yields_pair :
    parse_http_start_line [] = (HttpRequestMethod.Get, ['/']) := by decide

/-- C4 amended: for every start line containing no space character the
tokenizer does not fail; it returns the method looked up from the whole
line (the lookup defaults to `Get` for unrecognized tokens) together with
the default target `"/"`. -/
theorem c4_no_space_line_tokenizes_with_defaults (s : List Char) (h : ' ' ∉ s) :
    parse_http_start_line s = (http_request_method_from_string s, ['/']) := by
  rw [parse_http_start_line,
    splitNext_of_not_contains [' '] s (containsSeq_single ' ' s h)]

/-- C4 witness: the amended theorem applied to the concrete spaceless line
`"QUERY"`. -/
theorem c4_witness :
    (' ' ∉ "QUERY".toList) ∧
      parse_http_start_line "QUERY".toList =
        (http_request_method_from_string "QUERY".toList, ['/']) :=
  ⟨by decide, c4_no_space_line_tokenizes_with_defaults "QUERY".toList (by decide)⟩

/-- C5 counterexample: the claim says the header tokenizer splits on the
*first* `": "` and round-trips values that themselves contain `": "`.  On
`"A: b: c"` the code returns the value `"b"`, not `"b: c"`, and formatting
the returned pair back gives `"A: b"`, not the original line. -/
theorem c5_value_with_sep_breaks_roundtrip :
    parse_http_header ("A: b: c".toList) = some ("A".toList, "b".toList) ∧
      "A".toList ++ ':' :: ' ' :: "b".toList ≠ "A: b: c".toList := by decide

/-- C5 amended: for every header line `name ++ ": " ++ value` in which
neither the name nor the value contains the separator `": "`, the tokenizer
returns exactly `(name, value)`, so formatting the pair back as
`name ++ ": " ++ value` reproduces the original line; round-trip fails in
general for values containing `": "` because the value is cut at the next
separator occurrence. -/
theorem c5_roundtrip_without_nested_sep (name value : List Char)
    (hn : containsSeq sepHV name = false) (hv : containsSeq sepHV value = false) :
    parse_http_header (name ++ ':' :: ' ' :: value) = some (name, value) := by
  rw [parse_http_header, splitNext_sepHV_append name value hn]
  simp only
  rw [splitNext_of_not_contains sepHV value hv]

/-- C5 witness: the amended round-trip theorem applied to the concrete
header line `"Content-Type: text/html"`. -/
theorem c5_witness :
    (containsSeq sepHV "Content-Type".toList = false) ∧
      (containsSeq sepHV "text/html".toList = false) ∧
      parse_http_header ("Content-Type".toList ++ ':' :: ' ' :: "text/html".toList) =
        some ("Content-Type".toList, "text/html".toList) :=
  ⟨by decide, by decide,
    c5_roundtrip_without_nested_sep "Content-Type".toList "text/html".toList
      (by decide) (by decide)⟩

/-- C6: for every stream whose start line reads successfully and whose
header block collects to a line list containing a line without the `": "`
separator, the header tokenizer rejects that line (`none`) and the whole
request parse aborts with the header error (named `ParseHeaderError` in the
code, `MalformedHeader` in the specification's taxonomy); in particular no
partially built header mapping is ever returned. -/
theorem c6_malformed_header_aborts (stream : List Nat) (line l : List Char)
    (raws : List (List Char)) (restC : List (List Nat))
    (hline : utf8Decode (read_line_bytes stream).1 = some line)
    (hhp : headerPhase (byteLines (read_line_bytes stream).2) = some (raws, restC))
    (hl : l ∈ raws) (hbad : containsSeq sepHV l = false) :
    parse_http_header l = none ∧
      parse_http_request stream = ParseOutcome.err HttpParseError.ParseHeaderError := by
  have hph := parse_http_header_no_sep l hbad
  refine ⟨hph, ?_⟩
  rw [parse_http_request, hline]
  simp only
  rw [hhp]
  simp only
  rw [buildHeaders_of_bad raws l hl hph []]

/-- C6 witness: the abort theorem applied to the concrete request whose
single header line `"Bad"` has no separator. -/
theorem c6_witness :
    parse_http_request (strBytes "GET / HTTP/1.1\nBad\n\n") =
      ParseOutcome.err HttpParseError.ParseHeaderError :=
  (c6_malformed_header_aborts (strBytes "GET / HTTP/1.1\nBad\n\n")
    "GET / HTTP/1.1\n".toList "Bad".toList ["Bad".toList] []
    (by decide) (by decide) (by decide) (by decide)).2

/-- C7 counterexample: the claim says reaching end-of-stream before a blank
line fails with a missing-header-terminator error.  On a stream that ends
right after the header line `"Host: x"` (no blank line anywhere) the code
instead succeeds, keeping the headers read so far. -/
theorem c7_unterminated_headers_parse_ok :
    parse_http_request (strBytes "GET / HTTP/1.1\nHost: x\n") =
      ParseOutcome.ok ⟨HttpRequestMethod.Get, ['/'],
        [("Host".toList, "x".toList)], [Char.ofNat 0, Char.ofNat 0]⟩ := by decide

/-- C7 amended: end-of-stream terminates the header block exactly like a
blank line: whenever the start line reads successfully, the header phase
consumes the whole remaining stream (no blank line needed) and every
collected line parses, the request parse succeeds.  (No
missing-header-terminator error variant exists in the code.) -/
theorem c7_unterminated_headers_still_parse (stream : List Nat) (line : List Char)
    (raws : List (List Char)) (hdrs : List (List Char × List Char))
    (hline : utf8Decode (read_line_bytes stream).1 = some line)
    (hhp : headerPhase (byteLines (read_line_bytes stream).2) = some (raws, []))
    (hbh : buildHeaders [] raws = some hdrs) :
    ∃ r, parse_http_request stream = ParseOutcome.ok r := by
  rw [parse_http_request, hline]
  simp only
  rw [hhp]
  simp only
  rw [hbh]
  exact ⟨_, rfl⟩

/-- C7 witness: the amended theorem applied to a concrete stream ending in
the middle of the header block without any line terminator at all. -/
theorem c7_witness :
    ∃ r, parse_http_request (strBytes "GET / HTTP/1.1\nHost: x") = ParseOutcome.ok r :=
  c7_unterminated_headers_still_parse (strBytes "GET / HTTP/1.1\nHost: x")
    "GET / HTTP/1.1\n".toList ["Host: x".toList] [("Host".toList, "x".toList)]
    (by decide) (by decide) (by decide)

/-- C8 counterexample: the claim says a stream already at end-of-input fails
with a missing-start-line error.  On the empty stream `read_line` succeeds
with an empty line and parsing proceeds to a default `GET /` request. -/
theorem c8_empty_stream_parses_ok :
    parse_http_request [] =
      ParseOutcome.ok ⟨HttpRequestMethod.Get, ['/'], [],
        [Char.ofNat 0, Char.ofNat 0]⟩ := by decide

/-- C8 amended: the assembler fails with the start-line error (named
`ParseStartLineError` in the code) only when the first line read itself
fails, i.e. when the first line's bytes are not valid UTF-8; clean
end-of-input is a successful zero-byte read, not a failure. -/
theorem c8_start_line_error_only_on_failed_read (stream : List Nat)
    (h : utf8Decode (read_line_bytes stream).1 = none) :
    parse_http_request stream = ParseOutcome.err HttpParseError.ParseStartLineError := by
  rw [parse_http_request, h]

/-- C8 witness: the amended theorem applied to the one-byte stream `0xFF`,
whose first line is not valid UTF-8. -/
theorem c8_witness :
    (utf8Decode (read_line_bytes [255]).1 = none) ∧
      parse_http_request [255] = ParseOutcome.err HttpParseError.ParseStartLineError :=
  ⟨by decide, c8_start_line_error_only_on_failed_read [255] (by decide)⟩

/-- C9: the claim says the parse function never panics, for arbitrary
malformed or non-UTF-8 input.  Evaluating the code on a request whose
header block contains the invalid UTF-8 byte `0xFF`: the
`.map(|result| result.unwrap())` on the header-line iterator panics. -/
theorem c9_non_utf8_header_line_panics :
    parse_http_request (strBytes "GET / HTTP/1.1\n" ++ 255 :: strBytes "\n\n") =
      ParseOutcome.panicked := by decide

/-- C10: whenever the start line the assembler reads (terminator included,
as `read_line` returns it) consists of exactly two space-separated tokens
`m` and `t` followed by the terminator, any successfully parsed request
carries the target `t ++ "\n"` — the literal second token *with* the
trailing line terminator — and when the line has a single token the target
defaults to `"/"`. -/
theorem c10_two_token_target_keeps_terminator (stream : List Nat) (m t : List Char)
    (hm : ' ' ∉ m) (ht : ' ' ∉ t) :
    (utf8Decode (read_line_bytes stream).1 = some (m ++ ' ' :: (t ++ ['\n'])) →
      ∀ r, parse_http_request stream = ParseOutcome.ok r → r.path = t ++ ['\n']) ∧
    (utf8Decode (read_line_bytes stream).1 = some (m ++ ['\n']) →
      ∀ r, parse_http_request stream = ParseOutcome.ok r → r.path = ['/']) := by
  constructor
  · intro hline r hr
    have hp := parse_ok_path stream _ hline r hr
    have hnf : ' ' ∉ t ++ ['\n'] := by
      intro hmem
      rcases List.mem_append.mp hmem with h1 | h1
      · exact ht h1
      · simp at h1
    rw [parse_http_start_line, splitNext_single_append ' ' m (t ++ ['\n']) hm] at hp
    simp only at hp
    rw [splitNext_of_not_contains [' '] (t ++ ['\n'])
      (containsSeq_single ' ' (t ++ ['\n']) hnf)] at hp
    exact hp
  · intro hline r hr
    have hp := parse_ok_path stream _ hline r hr
    have hnf : ' ' ∉ m ++ ['\n'] := by
      intro hmem
      rcases List.mem_append.mp hmem with h1 | h1
      · exact hm h1
      · simp at h1
    rw [parse_http_start_line,
      splitNext_of_not_contains [' '] (m ++ ['\n'])
        (containsSeq_single ' ' (m ++ ['\n']) hnf)] at hp
    exact hp

/-- C10 witness: both parts of the terminator theorem applied to concrete
streams: `"GET /x\n\n"` yields the target `"/x\n"` (terminator kept), and
`"GET\n\n"` yields the default target `"/"`. -/
theorem c10_witness :
    (∃ r, parse_http_request (strBytes "GET /x\n\n") = ParseOutcome.ok r ∧
        r.path = "/x".toList ++ ['\n']) ∧
    (∃ r, parse_http_request (strBytes "GET\n\n") = ParseOutcome.ok r ∧ r.path = ['/']) := by
  constructor
  · refine ⟨⟨HttpRequestMethod.Get, "/x\n".toList, [], [Char.ofNat 0, Char.ofNat 0]⟩,
      by decide, ?_⟩
    exact (c10_two_token_target_keeps_terminator (strBytes "GET /x\n\n")
      "GET".toList "/x".toList (by decide) (by decide)).1 (by decide) _ (by decide)
  · refine ⟨⟨HttpRequestMethod.Get, ['/'], [], [Char.ofNat 0, Char.ofNat 0]⟩,
      by decide, ?_⟩
    exact (c10_two_token_target_keeps_terminator (strBytes "GET\n\n")
      "GET".toList [] (by decide) (by decide)).2 (by decide) _ (by decide)
